import Mathlib

/-!
Verification of the invoice-processing pipeline
(`shared/invoice_processor.py`, `shared/models.py`).

Each definition is a shallow embedding of the corresponding Python
function; theorems check the specification's claims against them.
-/

namespace InvoiceProc

/-! ## Candidate invoice records (the dicts produced by the model client)

A candidate record as consumed by the reconciliation loop of
`process_invoice_with_gpt` (invoice_processor.py lines 190-239).
Header fields are the ones of the prompt's JSON template; `total` is
`none` when the key is absent or null, `some q` when a number is
present (Python truthiness of the number is `q ≠ 0`); `items` is the
record's `List of Items` payload, whose elements the reconciler never
inspects (modelled as opaque strings). -/
structure Record where
  invoiceNumber : Option String
  supplierName : String
  soldToAddress : String
  orderDate : String
  shipDate : String
  shippingAddress : String
  total : Option ℚ
  items : List String
  deriving DecidableEq, Repr

/-- Python truthiness of the value held in the `Total` field:
a missing/null total and a zero total are falsy. -/
def totalTruthy : Option ℚ → Bool
  | none => false
  | some q => decide (q ≠ 0)

/-- `merge_invoice_items` (invoice_processor.py lines 171-180):
returns `current` when `new_items` is empty, `new_items` when
`current` is empty, and otherwise extends `current` with `new_items`. -/
def merge_invoice_items (current new_items : List String) : List String :=
  if new_items = [] then current
  else if current = [] then new_items
  else current ++ new_items

/-- One iteration of the reconciliation loop of
`process_invoice_with_gpt` (lines 200-233) on a single candidate
`result`: state is the held `current_invoice` and the accumulated
`all_invoices`. A `None` result is skipped; with no held invoice the
candidate is installed; with a held invoice of equal `Invoice Number`
the item lists are merged and a truthy candidate `Total` overwrites the
held one; otherwise the held invoice is finalized and the candidate
takes its place. -/
def reconcileStep (st : Option Record × List Record) (cand : Option Record) :
    Option Record × List Record :=
  match cand with
  | none => st
  | some r =>
    match st with
    | (none, out) => (some r, out)
    | (some cur, out) =>
      if r.invoiceNumber = cur.invoiceNumber then
        let cur' := { cur with items := merge_invoice_items cur.items r.items }
        let cur'' := if totalTruthy r.total then { cur' with total := r.total } else cur'
        (some cur'', out)
      else
        (some r, out ++ [cur])

/-- The whole reconciliation loop of `process_invoice_with_gpt`
(lines 190-237): fold the candidate stream through `reconcileStep`
starting from no held invoice and empty output, then finalize a still
held invoice at stream end (lines 236-237). -/
def reconcile (stream : List (Option Record)) : List Record :=
  match stream.foldl reconcileStep (none, []) with
  | (none, out) => out
  | (some cur, out) => out ++ [cur]

/-- A record with only an invoice number and an item list, the other
fields at their template defaults. -/
def mkRec (num : String) (its : List String) : Record :=
  { invoiceNumber := some num, supplierName := "", soldToAddress := "",
    orderDate := "", shipDate := "", shippingAddress := "",
    total := none, items := its }

/-- A held record with a supplier name and a nonzero total, for the C9
witness. -/
def heldRec : Record :=
  { mkRec "1" ["a"] with supplierName := "ACME", total := some 3 }

/-! ## Chunking (`process_large_content`, invoice_processor.py lines 147-165)

Text is modelled as its list of characters; `content.split(chr(10))`
is `List.splitOn` and `chr(10).join` is `List.intercalate` with a
one-newline separator. -/

/-- Python's `line_size = len(line) + 1` (line 154): a line's length
plus one for its newline. -/
def lineSize (line : List Char) : Nat := line.length + 1

/-- The accumulation loop of `process_large_content` (lines 149-165)
over the list of lines: `cur` is `current_chunk`, `size` is
`current_size`. Before a line is added, if the accumulated size plus
the line's size exceeds `sz` and the current chunk is non-empty, the
current chunk is sealed and a fresh one started with that line
(lines 156-162); at the end a non-empty current chunk is sealed
(lines 164-165). -/
def chunkAux (sz : Nat) : List (List Char) → Nat → List (List Char) → List (List (List Char))
  | cur, _, [] => if cur = [] then [] else [cur]
  | cur, size, line :: rest =>
    if size + lineSize line > sz ∧ cur ≠ [] then
      cur :: chunkAux sz [line] (lineSize line) rest
    else
      chunkAux sz (cur ++ [line]) (size + lineSize line) rest

/-- The groups of lines out of which `process_large_content` builds
its chunks: the content split on newlines, fed through the
accumulation loop from an empty current chunk. -/
def chunkGroups (content : List Char) (sz : Nat) : List (List (List Char)) :=
  chunkAux sz [] 0 (content.splitOn '\n')

/-- `process_large_content` (lines 147-165), chunk construction part:
each produced chunk is the newline-join of its group of lines. The
concurrent dispatch of the chunks to the model client (lines 167-169)
is modelled in the orchestrator. -/
def process_large_content (content : List Char) (sz : Nat) : List (List Char) :=
  (chunkGroups content sz).map (List.intercalate ['\n'])

/-- Total size, in the loop's accounting, of a group of lines. -/
def lineSizeSum (g : List (List Char)) : Nat := (g.map lineSize).sum

/-! ## Table serialization (`process_table_cells`, invoice_processor.py lines 61-79) -/

/-- One table cell as consumed by `process_table_cells`:
`(row_index, column_index, cleaned content)`. -/
abbrev Cell := Nat × Nat × String

/-- The content at position `(r, c)` of the `rows` dictionary built by
the first loop (lines 63-70): repeated assignment to the same key
overwrites, so the last listed cell for a position wins. -/
def cellAt (cells : List Cell) (r c : Nat) : Option String :=
  ((cells.filter (fun x => x.1 == r && x.2.1 == c)).getLast?).map (fun x => x.2.2)

/-- `max(row.keys())` for row `r` (line 76): the greatest column index
present in the row (0 when the row has no cell, a case the source
never reaches since rows are only rendered for present row keys). -/
def maxCol (cells : List Cell) (r : Nat) : Nat :=
  ((cells.filter (fun x => x.1 == r)).map (fun x => x.2.1)).foldl max 0

/-- `sorted(rows.keys())` (line 73): the distinct row indices in
ascending order. -/
def rowKeys (cells : List Cell) : List Nat :=
  List.insertionSort (· ≤ ·) (cells.map (fun x => x.1)).dedup

/-- One serialized row (line 76): the tab-join of the cell contents
from column 0 up to the row's greatest column index, absent cells
rendered as empty strings. -/
def rowText (cells : List Cell) (r : Nat) : String :=
  String.intercalate "\t" ((List.range (maxCol cells r + 1)).map
    (fun i => (cellAt cells r i).getD ""))

/-- `process_table_cells` (lines 61-79): the newline-join of the
serialized rows, taken in ascending row-index order. -/
def process_table_cells (cells : List Cell) : String :=
  String.intercalate "\n" ((rowKeys cells).map (rowText cells))

/-! ## Text line ordering (`extract_document_content`, invoice_processor.py lines 100-109)

Coordinates are modelled as rationals; Python's tuple `sort()` is the
stable insertion sort under the lexicographic order on the
`(y, x, text)` tuples, strings compared by code point. -/

/-- A polygon point `(x, y)`. -/
abbrev Point := ℚ × ℚ

/-- An extracted line: its bounding polygon and its cleaned content. -/
abbrev TextLine := List Point × String

/-- `min(p.y for p in line.polygon)` (line 103); the empty-polygon
case is a dead default (Python `min` would raise there, and the
layout service always reports a non-empty polygon). -/
def minY : List Point → ℚ
  | [] => 0
  | p :: ps => ps.foldl (fun acc q => min acc q.2) p.2

/-- `min(p.x for p in line.polygon)` (line 104). -/
def minX : List Point → ℚ
  | [] => 0
  | p :: ps => ps.foldl (fun acc q => min acc q.1) p.1

/-- The tuple `(y_pos, x_pos, text)` collected per line (line 105). -/
def lineKey (l : TextLine) : ℚ × ℚ × String := (minY l.1, minX l.1, l.2)

/-- Python's lexicographic order on `(y, x, text)` tuples, as compared
by `text_lines.sort()` (line 108). -/
def tupleLE (a b : ℚ × ℚ × String) : Prop :=
  a.1 < b.1 ∨ (a.1 = b.1 ∧ (a.2.1 < b.2.1 ∨ (a.2.1 = b.2.1 ∧ a.2.2 ≤ b.2.2)))

instance : DecidableRel tupleLE := fun a b => by unfold tupleLE; infer_instance

instance : IsTotal (ℚ × ℚ × String) tupleLE := by
  constructor
  intro a b
  unfold tupleLE
  rcases lt_trichotomy a.1 b.1 with h | h | h
  · exact Or.inl (Or.inl h)
  · rcases lt_trichotomy a.2.1 b.2.1 with h' | h' | h'
    · exact Or.inl (Or.inr ⟨h, Or.inl h'⟩)
    · rcases le_total a.2.2 b.2.2 with h'' | h''
      · exact Or.inl (Or.inr ⟨h, Or.inr ⟨h', h''⟩⟩)
      · exact Or.inr (Or.inr ⟨h.symm, Or.inr ⟨h'.symm, h''⟩⟩)
    · exact Or.inr (Or.inr ⟨h.symm, Or.inl h'⟩)
  · exact Or.inr (Or.inl h)

instance : IsTrans (ℚ × ℚ × String) tupleLE := by
  constructor
  intro a b c hab hbc
  unfold tupleLE at hab hbc ⊢
  rcases hab with h1 | ⟨h1, h2⟩ <;> rcases hbc with h3 | ⟨h3, h4⟩
  · exact Or.inl (lt_trans h1 h3)
  · exact Or.inl (h3 ▸ h1)
  · exact Or.inl (h1.symm ▸ h3)
  · right
    refine ⟨h1.trans h3, ?_⟩
    rcases h2 with h2 | ⟨h2, h2'⟩ <;> rcases h4 with h4 | ⟨h4, h4'⟩
    · exact Or.inl (lt_trans h2 h4)
    · exact Or.inl (h4 ▸ h2)
    · exact Or.inl (h2.symm ▸ h4)
    · exact Or.inr ⟨h2.trans h4, le_trans h2' h4'⟩

/-- Lines 101-108: collect the `(y, x, text)` tuples of a page's lines
and sort them. -/
def sortLines (ls : List TextLine) : List (ℚ × ℚ × String) :=
  List.insertionSort tupleLE (ls.map lineKey)

/-- Line 109: the page's text, the contents of the sorted tuples. -/
def pageTextLines (ls : List TextLine) : List String :=
  (sortLines ls).map (fun t => t.2.2)

/-- The claimed position-key order: minimum y of the polygon, then
minimum x, ascending. -/
def posLE (a b : ℚ × ℚ × String) : Prop :=
  a.1 < b.1 ∨ (a.1 = b.1 ∧ a.2.1 ≤ b.2.1)

/-! ## Pipeline orchestration (`process_invoice_with_gpt`, lines 182-242) -/

/-- `process_invoice_with_gpt` (lines 182-242) with its two external
effects abstracted: `pages` is the result of
`extract_document_content` (`none` for an extraction failure, the
pages in ascending page-number order with their payload abstracted to
`α`), and `candidates` gives, for one page, the ordered model-client
results of its chunk or chunks (lines 198-219). When extraction failed
or produced no pages the function returns `None` (lines 186-188);
otherwise the nested loops fold every page's candidates through the
reconciliation step, a held invoice is flushed at the end
(lines 236-237), and the accumulated list itself is returned
(line 239). -/
def process_invoice_with_gpt {α : Type} (pages : Option (List α))
    (candidates : α → List (Option Record)) : Option (List Record) :=
  match pages with
  | none => none
  | some ps =>
    if ps.isEmpty then none
    else
      some (match ps.foldl (fun st p => (candidates p).foldl reconcileStep st) (none, []) with
            | (none, out) => out
            | (some cur, out) => out ++ [cur])

/-! ## Model client (`send_to_gpt`, lines 33-59; `parse_json_safely`,
lines 23-31; `clean_text`, lines 17-21)

The external pieces are abstracted: `call n` is the outcome of the
n-th completion-API attempt, and `jloads` is `json.loads` returning
`none` for a parse error. String cleaning is modelled on the ASCII
fragment of Python's `isprintable`/`isspace`. -/

/-- Python `str.isspace` on the ASCII range. -/
def pyIsSpace (c : Char) : Bool :=
  c == ' ' || c == '\t' || c == '\n' || c.toNat == 13 || c.toNat == 11 || c.toNat == 12

/-- Python `str.isprintable` on the ASCII range: codes 32-126. -/
def pyIsPrintable (c : Char) : Bool := 32 ≤ c.toNat && c.toNat ≤ 126

/-- `clean_text` (lines 17-21): keep printable-or-whitespace
characters, then strip leading and trailing whitespace (empty input
trivially yields the empty result of the same computation). -/
def clean_text (content : String) : String :=
  String.mk ((((content.data.filter (fun c => pyIsPrintable c || pyIsSpace c)).dropWhile
    pyIsSpace).reverse.dropWhile pyIsSpace).reverse)

/-- Python `text.find(c)`: index of the first occurrence, `-1` when
absent. -/
def pyFind (c : Char) : List Char → Int
  | [] => -1
  | a :: as =>
    if a = c then 0
    else
      let r := pyFind c as
      if r < 0 then -1 else r + 1

/-- Python `text.rfind(c)`: index of the last occurrence, `-1` when
absent. -/
def pyRFind (c : Char) (s : List Char) : Int :=
  let r := pyFind c s.reverse
  if r < 0 then -1 else (s.length : Int) - 1 - r

/-- Normalize one Python slice endpoint: a negative index counts from
the end (clamped at 0), a non-negative one is clamped at the length. -/
def pySliceIndex (len : Nat) (i : Int) : Nat :=
  if i < 0 then (i + len).toNat else min i.toNat len

/-- Python `s[a:b]`. -/
def pySlice (s : List Char) (a b : Int) : List Char :=
  (s.take (pySliceIndex s.length b)).drop (pySliceIndex s.length a)

/-- The backquote character. -/
def backquote : Char := Char.ofNat 96

/-- The open-brace character. -/
def lbrace : Char := Char.ofNat 123

/-- The close-brace character. -/
def rbrace : Char := Char.ofNat 125

/-- Whether the text contains a fenced-block marker of three
consecutive backquotes (Python `"..." in text`). -/
def hasTripleBackquote : List Char → Bool
  | c1 :: c2 :: c3 :: rest =>
    (c1 == backquote && c2 == backquote && c3 == backquote) ||
      hasTripleBackquote (c2 :: c3 :: rest)
  | _ => false

/-- `parse_json_safely` (lines 23-31): when the text contains a
fenced-block marker, cut it down to the substring from the first open
brace to the last close brace (Python slice semantics with
`find`/`rfind` returning -1 when absent), then hand the payload to
`jloads`; a parse failure is already `none`. -/
def parse_json_safely {α : Type} (jloads : String → Option α) (text : String) : Option α :=
  let cs := text.data
  let cs' := if hasTripleBackquote cs then
      pySlice cs (pyFind lbrace cs) (pyRFind rbrace cs + 1)
    else cs
  jloads (String.mk cs')

/-- One attempt's outcome at the external completion API: the call
raises (transport failure), returns a falsy/choiceless response, or
returns message content. -/
inductive CallOutcome where
  | failure
  | emptyChoices
  | success (content : String)
  deriving DecidableEq, Repr

/-- The retry loop of `send_to_gpt` (lines 33-59): `attempt` is the
loop index, `delay` the current backoff, and the fuel is the number of
remaining iterations of `for attempt in range(retries)`. The returned
pair is the result and the list of performed backoff sleeps in
seconds, in order. Received content is cleaned and parsed immediately
(lines 48-50); a raising call on the last attempt returns `None`
(lines 52-55) and otherwise sleeps `delay` and doubles it
(lines 56-57); a choiceless response moves on to the next attempt;
exhausting the attempts returns `None` (line 59). -/
def sendLoop {α : Type} (jloads : String → Option α) (call : Nat → CallOutcome)
    (retries : Nat) : Nat → Nat → Nat → Option α × List Nat
  | 0, _, _ => (none, [])
  | fuel + 1, attempt, delay =>
    match call attempt with
    | .success content => (parse_json_safely jloads (clean_text content), [])
    | .emptyChoices => sendLoop jloads call retries fuel (attempt + 1) delay
    | .failure =>
      if attempt = retries - 1 then (none, [])
      else
        let r := sendLoop jloads call retries fuel (attempt + 1) (delay * 2)
        (r.1, delay :: r.2)

/-- `send_to_gpt` (lines 33-59): run the retry loop from attempt 0
with a 1-second initial delay. -/
def send_to_gpt {α : Type} (jloads : String → Option α) (call : Nat → CallOutcome)
    (retries : Nat) : Option α × List Nat :=
  sendLoop jloads call retries retries 0 1

/-! ## Data model round-trip (`shared/models.py`)

Python dictionaries with string keys are modelled as association
lists whose keys are unique (as `to_dict` produces them); dictionary
values are strings, numbers (floats carried exactly as rationals,
which is faithful here since `to_dict`/`from_dict` only copy them), or
lists of nested item dictionaries. The `str(...)`/`float(...)`
conversions of `from_dict` are modelled on values of the declared
field types, the only shapes `to_dict` ever stores. -/

/-- A Python value stored in an invoice dictionary. -/
inductive PyVal where
  | vstr (s : String)
  | vnum (q : ℚ)
  | vlist (xs : List (List (String × PyVal)))

/-- `dict.get(key, default)` on an association list. -/
def pyGet (d : List (String × PyVal)) (k : String) (dflt : PyVal) : PyVal :=
  match d.find? (fun p => p.1 == k) with
  | some p => p.2
  | none => dflt

/-- Python `str(v)` on a value of the declared string type. -/
def asStr : PyVal → Option String
  | .vstr s => some s
  | _ => none

/-- Python `float(v)` on a value of the declared numeric type. -/
def asNum : PyVal → Option ℚ
  | .vnum q => some q
  | _ => none

/-- Map a fallible function over a list, failing if any element fails
(a Python list comprehension whose body may raise). -/
def optionMapAll {α β : Type} (f : α → Option β) : List α → Option (List β)
  | [] => some []
  | x :: xs => do
    let y ← f x
    let ys ← optionMapAll f xs
    pure (y :: ys)

/-- `InvoiceItem` (models.py lines 4-22). -/
structure InvoiceItem where
  Item_Number : String
  Item_Name : String
  Product_Category : String
  Quantity_In_a_Case : ℚ
  Measurement_Of_Each_Item : ℚ
  Measured_In : String
  Quantity_Shipped : ℚ
  Extended_Price : ℚ
  Total_Units_Ordered : ℚ
  Case_Price : ℚ
  Catch_Weight : String
  Priced_By : String
  Splitable : String
  Split_Price : String
  Cost_of_a_Unit : ℚ
  Cost_of_Each_Item : ℚ
  Currency : String
  deriving DecidableEq, Repr

/-- `InvoiceItem.from_dict` (models.py lines 24-44). -/
def InvoiceItem.from_dict (data : List (String × PyVal)) : Option InvoiceItem := do
  let itemNumber ← asStr (pyGet data "Item Number" (.vstr ""))
  let itemName ← asStr (pyGet data "Item Name" (.vstr ""))
  let productCategory ← asStr (pyGet data "Product Category" (.vstr ""))
  let quantityInACase ← asNum (pyGet data "Quantity In a Case" (.vnum 0))
  let measurementOfEachItem ← asNum (pyGet data "Measurement Of Each Item" (.vnum 0))
  let measuredIn ← asStr (pyGet data "Measured In" (.vstr ""))
  let quantityShipped ← asNum (pyGet data "Quantity Shipped" (.vnum 0))
  let extendedPrice ← asNum (pyGet data "Extended Price" (.vnum 0))
  let totalUnitsOrdered ← asNum (pyGet data "Total Units Ordered" (.vnum 0))
  let casePrice ← asNum (pyGet data "Case Price" (.vnum 0))
  let catchWeight ← asStr (pyGet data "Catch Weight" (.vstr ""))
  let pricedBy ← asStr (pyGet data "Priced By" (.vstr ""))
  let splitable ← asStr (pyGet data "Splitable" (.vstr ""))
  let splitPrice ← asStr (pyGet data "Split Price" (.vstr ""))
  let costOfAUnit ← asNum (pyGet data "Cost of a Unit" (.vnum 0))
  let costOfEachItem ← asNum (pyGet data "Cost of Each Item" (.vnum 0))
  let currency ← asStr (pyGet data "Currency" (.vstr ""))
  pure { Item_Number := itemNumber, Item_Name := itemName,
         Product_Category := productCategory,
         Quantity_In_a_Case := quantityInACase,
         Measurement_Of_Each_Item := measurementOfEachItem,
         Measured_In := measuredIn, Quantity_Shipped := quantityShipped,
         Extended_Price := extendedPrice,
         Total_Units_Ordered := totalUnitsOrdered, Case_Price := casePrice,
         Catch_Weight := catchWeight, Priced_By := pricedBy,
         Splitable := splitable, Split_Price := splitPrice,
         Cost_of_a_Unit := costOfAUnit, Cost_of_Each_Item := costOfEachItem,
         Currency := currency }

/-- `InvoiceItem.to_dict` (models.py lines 46-65). -/
def InvoiceItem.to_dict (it : InvoiceItem) : List (String × PyVal) :=
  [("Item Number", .vstr it.Item_Number),
   ("Item Name", .vstr it.Item_Name),
   ("Product Category", .vstr it.Product_Category),
   ("Quantity In a Case", .vnum it.Quantity_In_a_Case),
   ("Measurement Of Each Item", .vnum it.Measurement_Of_Each_Item),
   ("Measured In", .vstr it.Measured_In),
   ("Quantity Shipped", .vnum it.Quantity_Shipped),
   ("Extended Price", .vnum it.Extended_Price),
   ("Total Units Ordered", .vnum it.Total_Units_Ordered),
   ("Case Price", .vnum it.Case_Price),
   ("Catch Weight", .vstr it.Catch_Weight),
   ("Priced By", .vstr it.Priced_By),
   ("Splitable", .vstr it.Splitable),
   ("Split Price", .vstr it.Split_Price),
   ("Cost of a Unit", .vnum it.Cost_of_a_Unit),
   ("Cost of Each Item", .vnum it.Cost_of_Each_Item),
   ("Currency", .vstr it.Currency)]

/-- `Invoice` (models.py lines 67-76). -/
structure Invoice where
  Supplier_Name : String
  Sold_to_Address : String
  Order_Date : String
  Ship_Date : String
  Invoice_Number : String
  Shipping_Address : String
  Total : ℚ
  Items : List InvoiceItem
  deriving DecidableEq, Repr

/-- `Invoice.from_dict` (models.py lines 78-91). -/
def Invoice.from_dict (data : List (String × PyVal)) : Option Invoice := do
  let itemsData ← match pyGet data "List of Items" (.vlist []) with
    | .vlist xs => some xs
    | _ => none
  let items ← optionMapAll InvoiceItem.from_dict itemsData
  let supplierName ← asStr (pyGet data "Supplier Name" (.vstr ""))
  let soldToAddress ← asStr (pyGet data "Sold to Address" (.vstr ""))
  let orderDate ← asStr (pyGet data "Order Date" (.vstr ""))
  let shipDate ← asStr (pyGet data "Ship Date" (.vstr ""))
  let invoiceNumber ← asStr (pyGet data "Invoice Number" (.vstr ""))
  let shippingAddress ← asStr (pyGet data "Shipping Address" (.vstr ""))
  let total ← asNum (pyGet data "Total" (.vnum 0))
  pure { Supplier_Name := supplierName, Sold_to_Address := soldToAddress,
         Order_Date := orderDate, Ship_Date := shipDate,
         Invoice_Number := invoiceNumber, Shipping_Address := shippingAddress,
         Total := total, Items := items }

/-- `Invoice.to_dict` (models.py lines 93-103). -/
def Invoice.to_dict (inv : Invoice) : List (String × PyVal) :=
  [("Supplier Name", .vstr inv.Supplier_Name),
   ("Sold to Address", .vstr inv.Sold_to_Address),
   ("Order Date", .vstr inv.Order_Date),
   ("Ship Date", .vstr inv.Ship_Date),
   ("Invoice Number", .vstr inv.Invoice_Number),
   ("Shipping Address", .vstr inv.Shipping_Address),
   ("Total", .vnum inv.Total),
   ("List of Items", .vlist (inv.Items.map InvoiceItem.to_dict))]

/-! ## Theorems -/

/-- Merged items are plain concatenation. -/
theorem merge_invoice_items_eq_append (current new_items : List String) :
    merge_invoice_items current new_items = current ++ new_items := by
  unfold merge_invoice_items
  by_cases h : new_items = [] <;> by_cases h' : current = [] <;> simp [h, h']

/-- Skipping a `None` candidate leaves the state unchanged. -/
theorem reconcileStep_none (st : Option Record × List Record) :
    reconcileStep st none = st := rfl

/-- C1: in the reconciliation loop, a candidate whose invoice number
equals the held invoice's has its item list concatenated (no dedup)
onto the held invoice and a specified (truthy) total overwrites the
held total; a differing invoice number finalizes the held invoice onto
the output and installs the candidate; at stream end a held invoice is
finalized; and the three-record example stream merges to the expected
two invoices. -/
theorem reconcile_loop_correct :
    (∀ (out : List Record) (cur r : Record), r.invoiceNumber = cur.invoiceNumber →
      reconcileStep (some cur, out) (some r) =
        (some { cur with
            items := cur.items ++ r.items,
            total := if totalTruthy r.total then r.total else cur.total }, out)) ∧
    (∀ (out : List Record) (cur r : Record), r.invoiceNumber ≠ cur.invoiceNumber →
      reconcileStep (some cur, out) (some r) = (some r, out ++ [cur])) ∧
    (∀ (stream : List (Option Record)) (cur : Record) (out : List Record),
      stream.foldl reconcileStep (none, []) = (some cur, out) →
      reconcile stream = out ++ [cur]) ∧
    reconcile [some (mkRec "1" ["a"]), some (mkRec "1" ["b"]), some (mkRec "2" ["c"])] =
      [mkRec "1" ["a", "b"], mkRec "2" ["c"]] := by
  refine ⟨?_, ?_, ?_, by decide⟩
  · intro out cur r h
    simp only [reconcileStep, h, if_true, merge_invoice_items_eq_append, if_pos rfl]
    by_cases ht : totalTruthy r.total <;> simp [ht]
  · intro out cur r h
    simp [reconcileStep, h]
  · intro stream cur out h
    unfold reconcile
    rw [h]

/-- Witness for C1 at concrete inputs: merging two records with equal
invoice number, finalizing on a differing one, and flushing the held
record at stream end. -/
theorem reconcile_loop_correct_witness :
    reconcileStep (some (mkRec "1" ["a"]), []) (some (mkRec "1" ["b"])) =
      (some (mkRec "1" ["a", "b"]), []) ∧
    reconcileStep (some (mkRec "1" ["a", "b"]), []) (some (mkRec "2" ["c"])) =
      (some (mkRec "2" ["c"]), [mkRec "1" ["a", "b"]]) ∧
    reconcile [some (mkRec "2" ["c"])] = [mkRec "2" ["c"]] :=
  ⟨reconcile_loop_correct.1 [] (mkRec "1" ["a"]) (mkRec "1" ["b"]) rfl,
   reconcile_loop_correct.2.1 [] (mkRec "1" ["a", "b"]) (mkRec "2" ["c"]) (by decide),
   reconcile_loop_correct.2.2.1 [some (mkRec "2" ["c"])] (mkRec "2" ["c"]) [] rfl⟩

/-- C2: a `null` entry anywhere in the candidate stream is a no-op for
reconciliation: removing it yields the same output sequence. -/
theorem reconcile_null_noop (xs ys : List (Option Record)) :
    reconcile (xs ++ [none] ++ ys) = reconcile (xs ++ ys) := by
  unfold reconcile
  simp only [List.append_assoc, List.singleton_append, List.foldl_append, List.foldl_cons,
    reconcileStep_none]

/-- C9: merging a same-invoice-number candidate into the held invoice
changes no field of the held invoice other than the item list and the
total, keeps the output sequence unchanged, and leaves the total
unchanged too whenever the candidate's total is falsy (missing or
zero); only a truthy candidate total overwrites it. -/
theorem reconcile_merge_frame (out : List Record) (cur r : Record)
    (h : r.invoiceNumber = cur.invoiceNumber) :
    (reconcileStep (some cur, out) (some r)).2 = out ∧
    ∀ cur', (reconcileStep (some cur, out) (some r)).1 = some cur' →
      cur'.invoiceNumber = cur.invoiceNumber ∧
      cur'.supplierName = cur.supplierName ∧
      cur'.soldToAddress = cur.soldToAddress ∧
      cur'.orderDate = cur.orderDate ∧
      cur'.shipDate = cur.shipDate ∧
      cur'.shippingAddress = cur.shippingAddress ∧
      (totalTruthy r.total = false → cur'.total = cur.total) ∧
      (totalTruthy r.total = true → cur'.total = r.total) := by
  constructor
  · simp [reconcileStep, h]
  · intro cur' hc
    by_cases ht : totalTruthy r.total <;>
      simp [reconcileStep, h, ht] at hc <;> subst hc <;> simp [ht]

/-- Witness for C9: merging a candidate with a falsy (missing) total
into `heldRec` keeps the output, the supplier name and the total. -/
theorem reconcile_merge_frame_witness :
    (reconcileStep (some heldRec, []) (some (mkRec "1" ["b"]))).2 = ([] : List Record) ∧
    ({ heldRec with items := ["a", "b"] } : Record).supplierName = heldRec.supplierName ∧
    ({ heldRec with items := ["a", "b"] } : Record).total = heldRec.total :=
  ⟨(reconcile_merge_frame [] heldRec (mkRec "1" ["b"]) rfl).1,
   ((reconcile_merge_frame [] heldRec (mkRec "1" ["b"]) rfl).2
      { heldRec with items := ["a", "b"] } rfl).2.1,
   ((reconcile_merge_frame [] heldRec (mkRec "1" ["b"]) rfl).2
      { heldRec with items := ["a", "b"] } rfl).2.2.2.2.2.2.1 rfl⟩

theorem intercalate_cons_cons {α : Type} (s x y : List α) (ys : List (List α)) :
    List.intercalate s (x :: y :: ys) = x ++ s ++ List.intercalate s (y :: ys) := by
  simp [List.intercalate, List.intersperse]

theorem intercalate_append_of_ne_nil {α : Type} (s : List α) :
    ∀ A : List (List α), ∀ B : List (List α), A ≠ [] → B ≠ [] →
      List.intercalate s (A ++ B) = List.intercalate s A ++ s ++ List.intercalate s B
  | [], _, hA, _ => absurd rfl hA
  | [a], B, _, hB => by
    cases B with
    | nil => exact absurd rfl hB
    | cons b bs => simp [intercalate_cons_cons, List.intercalate]
  | a :: a' :: A', B, _, hB => by
    have ih := intercalate_append_of_ne_nil s (a' :: A') B (by simp) hB
    simp only [List.cons_append] at ih ⊢
    rw [intercalate_cons_cons, intercalate_cons_cons, ih]
    simp [List.append_assoc]

/-- Joining the per-group joins with the separator equals joining all
the lines with it, as long as no group is empty. -/
theorem intercalate_map_intercalate {α : Type} (s : List α) :
    ∀ gs : List (List (List α)), (∀ g ∈ gs, g ≠ []) →
      List.intercalate s (gs.map (List.intercalate s)) = List.intercalate s gs.flatten
  | [], _ => rfl
  | [g], _ => by simp [List.intercalate]
  | g :: g' :: gs', h => by
    have hg : g ≠ [] := h g (by simp)
    have hg' : g' ≠ [] := h g' (by simp)
    have ih := intercalate_map_intercalate s (g' :: gs') (fun x hx => h x (by simp [hx]))
    have hflat : (g' :: gs').flatten ≠ [] := by
      simp only [List.flatten_cons]
      intro hcontra
      exact hg' (List.append_eq_nil.mp hcontra).1
    rw [List.map_cons, List.map_cons, intercalate_cons_cons, ← List.map_cons, ih]
    have hsplit : (g :: g' :: gs').flatten = g ++ (g' :: gs').flatten := rfl
    rw [hsplit, intercalate_append_of_ne_nil s g ((g' :: gs').flatten) hg hflat]

/-- The groups built by the loop flatten back to the input lines:
chunks are contiguous runs of whole lines, and no line is lost,
duplicated or split. -/
theorem chunkAux_flatten (sz : Nat) :
    ∀ (rest cur : List (List Char)) (size : Nat),
      (chunkAux sz cur size rest).flatten = cur ++ rest
  | [], cur, size => by by_cases h : cur = [] <;> simp [chunkAux, h]
  | line :: rest, cur, size => by
    by_cases h : size + lineSize line > sz ∧ cur ≠ [] <;>
      simp [chunkAux, h, chunkAux_flatten sz rest]

/-- The loop's step on a remaining line, as an equation: the current
chunk is sealed exactly when adding the line would push the
accumulated size past the threshold and the current chunk is
non-empty. -/
theorem chunkAux_cons (sz : Nat) (cur : List (List Char)) (size : Nat)
    (line : List Char) (rest : List (List Char)) :
    chunkAux sz cur size (line :: rest) =
      if size + lineSize line > sz ∧ cur ≠ [] then
        cur :: chunkAux sz [line] (lineSize line) rest
      else chunkAux sz (cur ++ [line]) (size + lineSize line) rest := rfl

/-- The loop's final step: a non-empty current chunk is sealed at the
end of the lines, an empty one is dropped. -/
theorem chunkAux_nil (sz : Nat) (cur : List (List Char)) (size : Nat) :
    chunkAux sz cur size [] = if cur = [] then [] else [cur] := rfl

/-- No group built by the loop is empty. -/
theorem chunkAux_ne_nil (sz : Nat) :
    ∀ (rest cur : List (List Char)) (size : Nat) (g : List (List Char)),
      g ∈ chunkAux sz cur size rest → g ≠ []
  | [], cur, size, g => by
    rw [chunkAux_nil]
    by_cases h : cur = []
    · simp [h]
    · rw [if_neg h, List.mem_singleton]
      rintro rfl
      exact h
  | line :: rest, cur, size, g => by
    rw [chunkAux_cons]
    by_cases h : size + lineSize line > sz ∧ cur ≠ []
    · rw [if_pos h]
      intro hmem
      rcases List.mem_cons.mp hmem with rfl | hmem
      · exact h.2
      · exact chunkAux_ne_nil sz rest [line] (lineSize line) g hmem
    · rw [if_neg h]
      exact chunkAux_ne_nil sz rest (cur ++ [line]) (size + lineSize line) g

/-- Invariant of the loop: starting from a current chunk whose
recorded size is accurate and which, when it has at least two lines,
fits the threshold, every emitted group of at least two lines has
total accounted size within the threshold. -/
theorem chunkAux_size_bound (sz : Nat) :
    ∀ (rest cur : List (List Char)) (size : Nat),
      size = lineSizeSum cur → (2 ≤ cur.length → size ≤ sz) →
      ∀ g ∈ chunkAux sz cur size rest, 2 ≤ g.length → lineSizeSum g ≤ sz
  | [], cur, size => by
    intro h1 h2 g hg hlen
    rw [chunkAux_nil] at hg
    by_cases h : cur = []
    · simp [h] at hg
    · rw [if_neg h, List.mem_singleton] at hg
      subst hg
      exact h1 ▸ h2 hlen
  | line :: rest, cur, size => by
    intro h1 h2 g hg hlen
    rw [chunkAux_cons] at hg
    by_cases h : size + lineSize line > sz ∧ cur ≠ []
    · rw [if_pos h] at hg
      rcases List.mem_cons.mp hg with rfl | hg
      · exact h1 ▸ h2 hlen
      · refine chunkAux_size_bound sz rest [line] (lineSize line) ?_ ?_ g hg hlen
        · simp [lineSizeSum]
        · intro hcontra; simp at hcontra
    · rw [if_neg h] at hg
      refine chunkAux_size_bound sz rest (cur ++ [line]) (size + lineSize line) ?_ ?_ g hg hlen
      · simp [lineSizeSum, h1]
      · intro hlen'
        rcases Decidable.not_and_iff_or_not.mp h with h' | h'
        · exact Nat.le_of_not_lt h'
        · exfalso
          have : cur = [] := Decidable.not_not.mp h'
          subst this
          simp at hlen'

/-- The length of the newline-join of a non-empty group is one less
than the loop's accounted size of the group. -/
theorem intercalate_length (nlc : Char) :
    ∀ g : List (List Char), g ≠ [] →
      (List.intercalate [nlc] g).length + 1 = lineSizeSum g
  | [], h => absurd rfl h
  | [x], _ => by simp [List.intercalate, lineSizeSum, lineSize]
  | x :: y :: ys, _ => by
    have ih := intercalate_length nlc (y :: ys) (by simp)
    rw [intercalate_cons_cons]
    have hsum : lineSizeSum (x :: y :: ys) = lineSize x + lineSizeSum (y :: ys) := by
      simp [lineSizeSum]
    rw [hsum]
    simp only [List.length_append, List.length_cons, List.length_nil, lineSize]
    omega

/-- C3: for any content and threshold, joining the produced chunks
with a newline between consecutive chunks reproduces the content
exactly, and no produced chunk has an empty group of lines. -/
theorem chunking_roundtrip (content : List Char) (sz : Nat) :
    List.intercalate ['\n'] (process_large_content content sz) = content ∧
    ∀ g ∈ chunkGroups content sz, g ≠ [] := by
  have hne : ∀ g ∈ chunkGroups content sz, g ≠ [] :=
    fun g hg => chunkAux_ne_nil sz (content.splitOn '\n') [] 0 g hg
  refine ⟨?_, hne⟩
  unfold process_large_content
  rw [intercalate_map_intercalate ['\n'] (chunkGroups content sz) hne]
  unfold chunkGroups
  rw [chunkAux_flatten sz (content.splitOn '\n') [] 0, List.nil_append]
  exact List.intercalate_splitOn content '\n'

/-- Witness for C3 at concrete content "ab\ncd" with threshold 5:
the two produced chunks join back to the content, and the first
produced group is non-empty. -/
theorem chunking_roundtrip_witness :
    List.intercalate ['\n'] (process_large_content "ab\ncd".data 5) = "ab\ncd".data ∧
    (["ab".data] : List (List Char)) ≠ [] :=
  ⟨(chunking_roundtrip "ab\ncd".data 5).1,
   (chunking_roundtrip "ab\ncd".data 5).2 ["ab".data] (by decide)⟩

/-- C4: every produced chunk fits the threshold unless it consists of
a single (oversized) line; the groups flatten back to the content's
lines, so a line is never split across chunks; and the loop seals the
current chunk exactly when adding the next line would push the
accumulated size past the threshold while the current chunk is
non-empty. -/
theorem chunking_size_bound (content : List Char) (sz : Nat) :
    (∀ g ∈ chunkGroups content sz,
      (List.intercalate ['\n'] g).length ≤ sz ∨ g.length = 1) ∧
    (chunkGroups content sz).flatten = content.splitOn '\n' ∧
    (∀ (cur : List (List Char)) (size : Nat) (line : List Char) (rest : List (List Char)),
      chunkAux sz cur size (line :: rest) =
        if size + lineSize line > sz ∧ cur ≠ [] then
          cur :: chunkAux sz [line] (lineSize line) rest
        else chunkAux sz (cur ++ [line]) (size + lineSize line) rest) := by
  refine ⟨?_, ?_, fun cur size line rest => chunkAux_cons sz cur size line rest⟩
  · intro g hg
    have hne : g ≠ [] := chunkAux_ne_nil sz (content.splitOn '\n') [] 0 g hg
    by_cases h1 : g.length = 1
    · exact Or.inr h1
    · left
      have hlen2 : 2 ≤ g.length := by
        rcases g with _ | ⟨x, _ | ⟨y, ys⟩⟩
        · exact absurd rfl hne
        · exact absurd rfl h1
        · simp
      have hsum : lineSizeSum g ≤ sz :=
        chunkAux_size_bound sz (content.splitOn '\n') [] 0 rfl
          (by intro hcontra; simp at hcontra) g hg hlen2
      have hlen := intercalate_length '\n' g hne
      omega
  · rw [chunkGroups, chunkAux_flatten sz (content.splitOn '\n') [] 0, List.nil_append]

/-- Witness for C4 at concrete content "ab\ncd" with threshold 5: the
first chunk "ab" fits the threshold, the groups flatten to the two
lines, and the seal condition fires on the second line. -/
theorem chunking_size_bound_witness :
    ((List.intercalate ['\n'] ["ab".data]).length ≤ 5 ∨ (["ab".data] : List (List Char)).length = 1) ∧
    (chunkGroups "ab\ncd".data 5).flatten = "ab\ncd".data.splitOn '\n' ∧
    chunkAux 5 ["ab".data] 3 ["cd".data] =
      (if 3 + lineSize "cd".data > 5 ∧ (["ab".data] : List (List Char)) ≠ [] then
        ["ab".data] :: chunkAux 5 ["cd".data] (lineSize "cd".data) []
      else chunkAux 5 (["ab".data] ++ ["cd".data]) (3 + lineSize "cd".data) []) :=
  ⟨(chunking_size_bound "ab\ncd".data 5).1 ["ab".data] (by decide),
   (chunking_size_bound "ab\ncd".data 5).2.1,
   (chunking_size_bound "ab\ncd".data 5).2.2 ["ab".data] 3 "cd".data []⟩

/-- C5: the serialized table lists the distinct row indices in
ascending order; a row is the tab-join of columns 0 up to that row's
own greatest column index with gaps empty; and the example table
renders to "A\tB\nC", row 1 rendering as "C" alone since its greatest
column index is 0. -/
theorem table_serialization :
    (∀ cells : List Cell, List.Sorted (· ≤ ·) (rowKeys cells)) ∧
    (∀ cells : List Cell, List.Perm (rowKeys cells) (cells.map (fun x => x.1)).dedup) ∧
    (∀ (cells : List Cell) (r : Nat),
      rowText cells r = String.intercalate "\t" ((List.range (maxCol cells r + 1)).map
        (fun i => (cellAt cells r i).getD ""))) ∧
    rowText [(0, 0, "A"), (0, 1, "B"), (1, 0, "C")] 1 = "C" ∧
    process_table_cells [(0, 0, "A"), (0, 1, "B"), (1, 0, "C")] = "A\tB\nC" :=
  ⟨fun _ => List.sorted_insertionSort _ _,
   fun _ => List.perm_insertionSort _ _,
   fun _ _ => rfl, rfl, rfl⟩

/-- C6: the emitted tuples are sorted ascending by position key
(minimum y, then minimum x), they are a permutation of the collected
tuples, and the three-line example is emitted in the order
["C", "A", "B"]. -/
theorem text_line_ordering :
    (∀ ls : List TextLine, List.Sorted posLE (sortLines ls)) ∧
    (∀ ls : List TextLine, List.Perm (sortLines ls) (ls.map lineKey)) ∧
    pageTextLines [([((10 : ℚ), (5 : ℚ))], "B"), ([(2, 5)], "A"), ([(50, 1)], "C")] =
      ["C", "A", "B"] := by
  refine ⟨?_, fun ls => List.perm_insertionSort _ _, by decide⟩
  intro ls
  have h := List.sorted_insertionSort tupleLE (ls.map lineKey)
  refine h.imp ?_
  intro a b hab
  rcases hab with h1 | ⟨h1, h2 | ⟨h2, _⟩⟩
  · exact Or.inl h1
  · exact Or.inr ⟨h1, le_of_lt h2⟩
  · exact Or.inr ⟨h1, h2.le⟩

/-- The nested page/candidate loops are the reconciliation of the
concatenated candidate stream. -/
theorem process_foldl_eq_reconcile {α : Type} (ps : List α)
    (candidates : α → List (Option Record)) :
    (match ps.foldl (fun st p => (candidates p).foldl reconcileStep st) (none, []) with
      | (none, out) => out
      | (some cur, out) => out ++ [cur]) = reconcile (ps.map candidates).flatten := by
  unfold reconcile
  rw [List.foldl_flatten, List.foldl_map]

/-- C7 counterexample: one page whose only candidate is null gives an
empty finalized sequence, yet the pipeline returns the empty list, not
null. -/
theorem pipeline_empty_not_null :
    reconcile ((([()] : List Unit).map (fun _ => [(none : Option Record)])).flatten) = [] ∧
    process_invoice_with_gpt (some [()]) (fun _ => [(none : Option Record)]) =
      some ([] : List Record) ∧
    some ([] : List Record) ≠ none := ⟨rfl, rfl, by simp⟩

/-- C7 amended: the pipeline returns null when extraction fails or
yields no pages; otherwise it returns the reconciler's finalized
sequence as a non-null value — even when that sequence is empty. -/
theorem pipeline_return_behavior {α : Type} :
    (∀ candidates : α → List (Option Record),
      process_invoice_with_gpt none candidates = none) ∧
    (∀ candidates : α → List (Option Record),
      process_invoice_with_gpt (some ([] : List α)) candidates = none) ∧
    (∀ (ps : List α) (candidates : α → List (Option Record)), ps ≠ [] →
      process_invoice_with_gpt (some ps) candidates =
        some (reconcile (ps.map candidates).flatten)) := by
  refine ⟨fun _ => rfl, fun _ => by simp [process_invoice_with_gpt], ?_⟩
  intro ps candidates h
  have hne : ps.isEmpty = false := by
    cases ps with
    | nil => exact absurd rfl h
    | cons a as => rfl
  simp only [process_invoice_with_gpt, hne, Bool.false_eq_true, if_false]
  rw [process_foldl_eq_reconcile]

/-- Witness for the amended C7 at a concrete one-page input with one
successful candidate. -/
theorem pipeline_return_behavior_witness :
    process_invoice_with_gpt (some [()]) (fun _ => [some (mkRec "1" ["a"])]) =
      some (reconcile (([()].map (fun _ => [some (mkRec "1" ["a"])])).flatten)) :=
  pipeline_return_behavior.2.2 [()] (fun _ => [some (mkRec "1" ["a"])]) (by simp)

/-- C8: with the default 3 retries, transport failures are retried up
to 3 attempts in total with exponential backoff sleeps of 1s then 2s,
and after the final failed attempt the client returns null; a
successfully received response is cleaned and parsed at once with no
sleep and no further attempt, so an unparsable one yields null
immediately. -/
theorem send_retry_policy {α : Type} (jloads : String → Option α) :
    (∀ call : Nat → CallOutcome, (∀ i, i < 3 → call i = .failure) →
      send_to_gpt jloads call 3 = (none, [1, 2])) ∧
    (∀ (call : Nat → CallOutcome) (c : String), call 0 = .success c →
      send_to_gpt jloads call 3 = (parse_json_safely jloads (clean_text c), [])) ∧
    (∀ (call : Nat → CallOutcome) (c : String), call 0 = .success c →
      parse_json_safely jloads (clean_text c) = none →
      send_to_gpt jloads call 3 = (none, [])) := by
  refine ⟨?_, ?_, ?_⟩
  · intro call h
    have h0 := h 0 (by norm_num)
    have h1 := h 1 (by norm_num)
    have h2 := h 2 (by norm_num)
    simp [send_to_gpt, sendLoop, h0, h1, h2]
  · intro call c h
    simp [send_to_gpt, sendLoop, h]
  · intro call c h hp
    simp [send_to_gpt, sendLoop, h, hp]

/-- Witness for C8: a client whose every attempt raises returns null
after sleeps of 1s and 2s, and a client whose first response is
received but unparsable returns null immediately. -/
theorem send_retry_policy_witness :
    send_to_gpt (fun _ => (none : Option Unit)) (fun _ => CallOutcome.failure) 3 =
      (none, [1, 2]) ∧
    send_to_gpt (fun _ => (none : Option Unit)) (fun _ => CallOutcome.success "x") 3 =
      (none, []) :=
  ⟨(send_retry_policy (fun _ => (none : Option Unit))).1 (fun _ => CallOutcome.failure)
      (fun _ _ => rfl),
   (send_retry_policy (fun _ => (none : Option Unit))).2.2 (fun _ => CallOutcome.success "x")
      "x" rfl rfl⟩

/-- C10: `from_dict` after `to_dict` is the identity, both on invoice
items and on whole invoices. -/
theorem to_dict_from_dict_id :
    (∀ it : InvoiceItem, InvoiceItem.from_dict it.to_dict = some it) ∧
    (∀ inv : Invoice, Invoice.from_dict inv.to_dict = some inv) := by
  have hitem : ∀ it : InvoiceItem, InvoiceItem.from_dict it.to_dict = some it :=
    fun it => rfl
  refine ⟨hitem, ?_⟩
  have hmap : ∀ l : List InvoiceItem,
      optionMapAll InvoiceItem.from_dict (l.map InvoiceItem.to_dict) = some l := by
    intro l
    induction l with
    | nil => rfl
    | cons x xs ih => simp [optionMapAll, hitem x, ih]
  intro inv
  obtain ⟨sn, sta, od, sd, inum, sa, tot, its⟩ := inv
  have key : Invoice.from_dict (Invoice.to_dict ⟨sn, sta, od, sd, inum, sa, tot, its⟩) =
      (optionMapAll InvoiceItem.from_dict (List.map InvoiceItem.to_dict its)).bind
        (fun items => some ⟨sn, sta, od, sd, inum, sa, tot, items⟩) := rfl
  rw [key, hmap its]
  rfl

end InvoiceProc
